import Mathlib

/-!
Verification of the record access and validation layer of the
SampleCustomerDatabase console application (CustomerTracker), shallowly
embedded in Lean.  Pure string handling is embedded directly; the SQLite
calls are embedded as functions over an explicit relational state
(`CustomerDatabase`) together with explicit engine-fault parameters and an
event trace recording every prepare / bind / step / finalize / error-log
call, mirroring the call structure of the source.
-/

/-! ## Whitespace trimming (`trimWhiteSpace`, source lines 96-102) -/

/-- The whitespace set used by the source: the characters of " \n\r\t\f\v"
(space, newline, carriage return, tab, form feed, vertical tab). -/
def wsChars : List Char := [' ', '\n', '\r', '\t', '\x0C', '\x0B']

/-- Whether a character is in the whitespace set of the source. -/
def isWs (c : Char) : Bool := wsChars.contains c

/-- Model of `inString.find_first_not_of(" \n\r\t\f\v")`: the index of the
first character outside the whitespace set, or `none` for `npos`. -/
def findFirstNotOf : List Char → Option Nat
  | [] => none
  | c :: t => if isWs c then (findFirstNotOf t).map (· + 1) else some 0

/-- Model of `inString.find_last_not_of(" \n\r\t\f\v")`: the index of the
last character outside the whitespace set, or `none` for `npos`. -/
def findLastNotOf : List Char → Option Nat
  | [] => none
  | c :: t =>
    match findLastNotOf t with
    | some i => some (i + 1)
    | none => if isWs c then none else some 0

/-- `trimWhiteSpace` from the source: when both `find_first_not_of` and
`find_last_not_of` succeed the string becomes
`substr(startOfWord, endOfWord - startOfWord + 1)`; otherwise the function
prints a diagnostic (modelled by the `Bool` component being `true`) and
leaves the string unchanged. -/
def trimWhiteSpace (s : List Char) : List Char × Bool :=
  match findFirstNotOf s, findLastNotOf s with
  | some st, some en => ((s.drop st).take (en - st + 1), false)
  | _, _ => (s, true)

/-- The description of trimming given by the spec: drop whitespace from the front,
then from the back, leaving the interior untouched. -/
def trimSpec (s : List Char) : List Char :=
  List.rdropWhile isWs (List.dropWhile isWs s)

theorem findFirstNotOf_eq_none_iff (s : List Char) :
    findFirstNotOf s = none ↔ ∀ c ∈ s, isWs c = true := by
  induction s with
  | nil => simp [findFirstNotOf]
  | cons c t ih =>
    by_cases hc : isWs c = true
    · simp [findFirstNotOf, hc, ih]
    · simp [findFirstNotOf, hc]

theorem findLastNotOf_eq_none_iff (s : List Char) :
    findLastNotOf s = none ↔ ∀ c ∈ s, isWs c = true := by
  induction s with
  | nil => simp [findLastNotOf]
  | cons c t ih =>
    cases ht : findLastNotOf t with
    | some i =>
      have hnt : ¬ ∀ x ∈ t, isWs x = true := fun hall => by
        rw [ih.mpr hall] at ht
        exact Option.noConfusion ht
      constructor
      · intro h
        simp only [findLastNotOf, ht] at h
        exact Option.noConfusion h
      · intro hall
        exact absurd (fun x hx => hall x (List.mem_cons_of_mem c hx)) hnt
    | none =>
      have hall := ih.mp ht
      by_cases hc : isWs c = true
      · constructor
        · intro _ x hx
          rcases List.mem_cons.mp hx with h | h
          · rw [h]; exact hc
          · exact hall x h
        · intro _
          simp [findLastNotOf, ht, hc]
      · constructor
        · intro h
          simp [findLastNotOf, ht, hc] at h
        · intro hcontra
          exact absurd (hcontra c (List.mem_cons_self c t)) hc

theorem rdropWhile_cons_of_not_all (c : Char) (t : List Char)
    (h : ¬ ∀ x ∈ t, isWs x = true) :
    List.rdropWhile isWs (c :: t) = c :: List.rdropWhile isWs t := by
  have hne : t.reverse.dropWhile isWs ≠ [] := by
    rw [Ne, List.dropWhile_eq_nil_iff]
    simpa using h
  have hrev : (c :: t).reverse = t.reverse ++ [c] := by simp
  rw [List.rdropWhile, List.rdropWhile, hrev, List.dropWhile_append]
  have hemp : (t.reverse.dropWhile isWs).isEmpty = false := by
    rcases hx : t.reverse.dropWhile isWs with _ | ⟨a, l⟩
    · exact absurd hx hne
    · rfl
  simp [hemp]

theorem take_findLastNotOf (s : List Char) (en : Nat)
    (h : findLastNotOf s = some en) :
    s.take (en + 1) = List.rdropWhile isWs s := by
  induction s generalizing en with
  | nil => exact Option.noConfusion h
  | cons c t ih =>
    cases ht : findLastNotOf t with
    | some i =>
      simp only [findLastNotOf, ht] at h
      have hen : en = i + 1 := (Option.some.inj h).symm
      have hnt : ¬ ∀ x ∈ t, isWs x = true := fun hall => by
        rw [(findLastNotOf_eq_none_iff t).mpr hall] at ht
        exact Option.noConfusion ht
      rw [hen, rdropWhile_cons_of_not_all c t hnt]
      rw [List.take_succ_cons, ih i ht]
    | none =>
      simp only [findLastNotOf, ht] at h
      by_cases hc : isWs c = true
      · simp [hc] at h
      · simp only [hc, if_false] at h
        have hen : en = 0 := (Option.some.inj h).symm
        have hall : ∀ x ∈ t, isWs x = true := (findLastNotOf_eq_none_iff t).mp ht
        have hrev : (c :: t).reverse = t.reverse ++ [c] := by simp
        rw [hen, List.rdropWhile, hrev,
          List.dropWhile_append_of_pos (by simpa using hall)]
        simp [List.dropWhile_cons, hc]

theorem trimWhiteSpace_eq_trimSpec (s : List Char)
    (h : ¬ ∀ c ∈ s, isWs c = true) :
    trimWhiteSpace s = (trimSpec s, false) := by
  induction s with
  | nil => simp at h
  | cons c t ih =>
    by_cases hc : isWs c = true
    · have hnt : ¬ ∀ x ∈ t, isWs x = true := by
        intro hall
        exact h (by
          intro x hx
          rcases List.mem_cons.mp hx with hx | hx
          · rw [hx]; exact hc
          · exact hall x hx)
      obtain ⟨st, hst⟩ : ∃ st, findFirstNotOf t = some st := by
        cases hft : findFirstNotOf t with
        | some st => exact ⟨st, rfl⟩
        | none => exact absurd ((findFirstNotOf_eq_none_iff t).mp hft) hnt
      obtain ⟨en, hen⟩ : ∃ en, findLastNotOf t = some en := by
        cases hft : findLastNotOf t with
        | some en => exact ⟨en, rfl⟩
        | none => exact absurd ((findLastNotOf_eq_none_iff t).mp hft) hnt
      have h1 : findFirstNotOf (c :: t) = some (st + 1) := by
        simp [findFirstNotOf, hc, hst]
      have h2 : findLastNotOf (c :: t) = some (en + 1) := by
        simp [findLastNotOf, hen]
      have h3 := ih hnt
      simp only [trimWhiteSpace, hst, hen] at h3
      have h4 : trimSpec (c :: t) = trimSpec t := by
        simp [trimSpec, List.dropWhile_cons, hc]
      simp only [trimWhiteSpace, h1, h2, h4, List.drop_succ_cons,
        Nat.succ_sub_succ]
      exact h3
    · have h1 : findFirstNotOf (c :: t) = some 0 := by
        simp [findFirstNotOf, hc]
      obtain ⟨en, h2⟩ : ∃ en, findLastNotOf (c :: t) = some en := by
        cases hft : findLastNotOf t with
        | some i => exact ⟨i + 1, by simp [findLastNotOf, hft]⟩
        | none => exact ⟨0, by simp [findLastNotOf, hft, hc]⟩
      have h4 : trimSpec (c :: t) = List.rdropWhile isWs (c :: t) := by
        simp [trimSpec, List.dropWhile_cons, hc]
      simp only [trimWhiteSpace, h1, h2, h4, List.drop_zero, Nat.sub_zero]
      rw [take_findLastNotOf (c :: t) en h2]

theorem trimWhiteSpace_all_ws (s : List Char)
    (h : ∀ c ∈ s, isWs c = true) :
    trimWhiteSpace s = (s, true) := by
  have h1 : findFirstNotOf s = none := (findFirstNotOf_eq_none_iff s).mpr h
  have h2 : findLastNotOf s = none := (findLastNotOf_eq_none_iff s).mpr h
  simp [trimWhiteSpace, h1, h2]

theorem trimSpec_decomposition (s : List Char) :
    ∃ a b, s = a ++ trimSpec s ++ b ∧
      (∀ c ∈ a, isWs c = true) ∧ (∀ c ∈ b, isWs c = true) := by
  refine ⟨s.takeWhile isWs, List.rtakeWhile isWs (s.dropWhile isWs), ?_, ?_, ?_⟩
  · have h1 : s = s.takeWhile isWs ++ s.dropWhile isWs :=
      (List.takeWhile_append_dropWhile isWs s).symm
    have h2 : s.dropWhile isWs =
        trimSpec s ++ List.rtakeWhile isWs (s.dropWhile isWs) := by
      have h3 : (s.dropWhile isWs).reverse =
          (s.dropWhile isWs).reverse.takeWhile isWs ++
          (s.dropWhile isWs).reverse.dropWhile isWs :=
        (List.takeWhile_append_dropWhile isWs (s.dropWhile isWs).reverse).symm
      calc s.dropWhile isWs = (s.dropWhile isWs).reverse.reverse := by simp
        _ = ((s.dropWhile isWs).reverse.takeWhile isWs ++
              (s.dropWhile isWs).reverse.dropWhile isWs).reverse := by rw [← h3]
        _ = trimSpec s ++ List.rtakeWhile isWs (s.dropWhile isWs) := by
              rw [List.reverse_append]
              rfl
    rw [List.append_assoc, ← h2]
    exact h1
  · intro c hc
    exact List.mem_takeWhile_imp hc
  · intro c hc
    exact List.mem_rtakeWhile_imp hc

/-- Claim C5: for a string containing at least one non-whitespace character,
`trimWhiteSpace` removes exactly the leading and trailing whitespace
characters (space, tab, newline, carriage return, form feed, vertical tab)
and preserves the interior characters in order; for an empty or
all-whitespace string it emits a diagnostic (flag `true`) and leaves the
string unchanged. -/
theorem trimWhiteSpace_correct (s : List Char) :
    ((¬ ∀ c ∈ s, isWs c = true) →
      trimWhiteSpace s = (trimSpec s, false) ∧
      ∃ a b, s = a ++ (trimWhiteSpace s).1 ++ b ∧
        (∀ c ∈ a, isWs c = true) ∧ (∀ c ∈ b, isWs c = true)) ∧
    ((∀ c ∈ s, isWs c = true) → trimWhiteSpace s = (s, true)) := by
  constructor
  · intro h
    have h1 := trimWhiteSpace_eq_trimSpec s h
    refine ⟨h1, ?_⟩
    rw [h1]
    exact trimSpec_decomposition s
  · exact trimWhiteSpace_all_ws s

/-- Witness for C5 at the concrete input "  ab c\t": trimming yields "ab c"
with no diagnostic; and at the all-whitespace input "  " it yields the
input back with the diagnostic flag. -/
theorem trimWhiteSpace_correct_witness :
    trimWhiteSpace [' ', ' ', 'a', 'b', ' ', 'c', '\t'] =
      (['a', 'b', ' ', 'c'], false) := by
  have h := ((trimWhiteSpace_correct
    [' ', ' ', 'a', 'b', ' ', 'c', '\t']).1 (by decide)).1
  rw [h]
  decide

/-! ## Relational state

Two tables, mirroring the DDL run at startup: `Customers` (source lines
327-336) and `CustomerAddress` (source lines 344-356).  Optional text
columns are `Option String`; NOT NULL columns are plain. -/

/-- A row of the `Customers` table. -/
structure CustomerRow where
  Customer_ID : Int
  Customer_Short_Name : String
  First_Name : Option String
  Last_Name : Option String
  Group_Name : Option String
  Credit_Limit : Int
  Outstanding_Credit : Int
  Created_On : String
  Updated_On : String
deriving DecidableEq, Repr

/-- A row of the `CustomerAddress` table. -/
structure AddressRow where
  Address_ID : Int
  Customer_ID : Int
  Address_Type : Option String
  Contact_Name : Option String
  Address_Line_1 : String
  Address_Line_2 : Option String
  Address_Line_3 : Option String
  Address_Line_4 : Option String
  Address_Line_5 : Option String
  Created_On : String
  Updated_On : String
deriving DecidableEq, Repr

/-- The persistent state: the two tables, as ordered row lists. -/
structure CustomerDatabase where
  Customers : List CustomerRow
  CustomerAddress : List AddressRow
deriving DecidableEq, Repr

/-! ## Engine events and faults

Every sqlite call made by the source is checked at the call site; we model
each prepared statement the source builds as a `SqlStmt` tag and record the
calls the control flow actually performs as a trace of `SqlEvent`s.
Whether the external engine fails a prepare / bind / step call is
nondeterministic input, supplied as `SqlFaults`. -/

/-- The prepared statements appearing in the claims. -/
inductive SqlStmt
  | selectCountAll
  | selectCountWhere
  | selectId
  | selectAddresses
  | insertCustomer
  | deleteAddrByCustomer
  | deleteCustomer
  | deleteAddrById
  | updateCredit
deriving DecidableEq, Repr

/-- One engine call (or console error log) performed by the source. -/
inductive SqlEvent
  | prep (s : SqlStmt) (ok : Bool)
  | bind (s : SqlStmt) (ok : Bool)
  | step (s : SqlStmt) (ok : Bool)
  | finalize (s : SqlStmt)
  | logError (s : SqlStmt)
deriving DecidableEq, Repr

/-- External-engine nondeterminism for one prepared statement: whether its
prepare, bind and step calls fail. -/
structure SqlFaults where
  prepFails : Bool
  bindFails : Bool
  stepFails : Bool
deriving DecidableEq, Repr

/-- The all-success engine behaviour. -/
def noFaults : SqlFaults := ⟨false, false, false⟩

/-! ## `selectCount` (source lines 107-127 and 133-154)

Both overloads build a SELECT COUNT statement, initialise the result to -1,
and overwrite it with the count from the engine only when every call succeeded; the
handle is finalized on every path.  `cnt` is the count the engine would
report (a number of rows, hence a natural number). -/

/-- The two-argument `selectCount` overload (no WHERE clause): result and
event trace. -/
def selectCountSimpleRun (cnt : Nat) (prepFails stepFails : Bool) :
    Int × List SqlEvent :=
  if prepFails then
    (-1, [.prep .selectCountAll false, .logError .selectCountAll,
          .finalize .selectCountAll])
  else if stepFails then
    (-1, [.prep .selectCountAll true, .step .selectCountAll false,
          .logError .selectCountAll, .finalize .selectCountAll])
  else
    ((cnt : Int), [.prep .selectCountAll true, .step .selectCountAll true,
          .finalize .selectCountAll])

/-- The conditional `selectCount` overload (WHERE column = ?): the bound
condition value adds a bind call; on a bind failure the step is inside the
untaken `else` branch, so it is skipped. -/
def selectCountCondRun (cnt : Nat) (f : SqlFaults) : Int × List SqlEvent :=
  if f.prepFails then
    (-1, [.prep .selectCountWhere false, .logError .selectCountWhere,
          .finalize .selectCountWhere])
  else if f.bindFails then
    (-1, [.prep .selectCountWhere true, .bind .selectCountWhere false,
          .logError .selectCountWhere, .finalize .selectCountWhere])
  else if f.stepFails then
    (-1, [.prep .selectCountWhere true, .bind .selectCountWhere true,
          .step .selectCountWhere false, .logError .selectCountWhere,
          .finalize .selectCountWhere])
  else
    ((cnt : Int), [.prep .selectCountWhere true, .bind .selectCountWhere true,
          .step .selectCountWhere true, .finalize .selectCountWhere])

/-- Claim C6: both `selectCount` overloads return -1 exactly when the
prepare, bind (conditional overload) or step call fails; otherwise they
return the count from the engine, a non-negative value distinct from the sentinel;
and on every path the statement is finalized last before returning. -/
theorem selectCount_sentinel_and_finalize (cnt : Nat) (pf sf : Bool)
    (f : SqlFaults) :
    ((selectCountSimpleRun cnt pf sf).1 = -1 ↔ (pf = true ∨ sf = true)) ∧
    ((selectCountSimpleRun cnt pf sf).1 ≠ -1 →
      (selectCountSimpleRun cnt pf sf).1 = (cnt : Int) ∧
      0 ≤ (selectCountSimpleRun cnt pf sf).1) ∧
    ((selectCountSimpleRun cnt pf sf).2.getLast? =
      some (.finalize .selectCountAll)) ∧
    ((selectCountCondRun cnt f).1 = -1 ↔
      (f.prepFails = true ∨ f.bindFails = true ∨ f.stepFails = true)) ∧
    ((selectCountCondRun cnt f).1 ≠ -1 →
      (selectCountCondRun cnt f).1 = (cnt : Int) ∧
      0 ≤ (selectCountCondRun cnt f).1) ∧
    ((selectCountCondRun cnt f).2.getLast? =
      some (.finalize .selectCountWhere)) := by
  obtain ⟨fp, fb, fs⟩ := f
  have hnat : ¬ ((cnt : Int) = -1) := by omega
  cases pf <;> cases sf <;> cases fp <;> cases fb <;> cases fs <;>
    simp [selectCountSimpleRun, selectCountCondRun, hnat]

/-- Witness for C6 at count 3 with no faults: both overloads return 3. -/
theorem selectCount_sentinel_and_finalize_witness :
    (selectCountSimpleRun 3 false false).1 = 3 ∧
    (selectCountCondRun 3 noFaults).1 = 3 := by
  have h := selectCount_sentinel_and_finalize 3 false false noFaults
  exact ⟨(h.2.1 (by decide)).1, (h.2.2.2.2.1 (by decide)).1⟩

/-! ## Entity resolvers -/

/-- `trimWhiteSpace` applied to a `String`, as the resolvers do. -/
def trimString (s : String) : String := String.mk (trimWhiteSpace s.data).1

/-- The count the engine reports for
`SELECT COUNT(*) FROM Customers WHERE Customer_Short_Name = ?`. -/
def shortNameCount (db : CustomerDatabase) (name : String) : Nat :=
  (db.Customers.filter (fun r => r.Customer_Short_Name == name)).length

/-- `getShortName` (source lines 176-191): read a line, trim it, count the
matching customers; retry on a zero count and on the -1 failure sentinel,
otherwise return the trimmed name.  The console input is the list of lines
the operator types, each paired with the engine faults of its count query;
`none` models the loop never returning (input exhausted). -/
def getShortName (db : CustomerDatabase) :
    List (String × SqlFaults) → Option String
  | [] => none
  | (raw, f) :: rest =>
    let name := trimString raw
    let cnt := (selectCountCondRun (shortNameCount db name) f).1
    if cnt = 0 then getShortName db rest
    else if cnt = -1 then getShortName db rest
    else some name

theorem selectCountCondRun_fst (n : Nat) (f : SqlFaults) :
    (selectCountCondRun n f).1 = -1 ∨ (selectCountCondRun n f).1 = (n : Int) := by
  obtain ⟨a, b, c⟩ := f
  cases a <;> cases b <;> cases c <;> simp [selectCountCondRun]

/-- Claim C2: when `getShortName` returns a name, the count of Customers
rows whose short name equals the returned name is strictly positive at the
time of return. -/
theorem getShortName_positive_count (db : CustomerDatabase)
    (inputs : List (String × SqlFaults)) (s : String)
    (h : getShortName db inputs = some s) :
    0 < shortNameCount db s := by
  induction inputs with
  | nil => exact Option.noConfusion h
  | cons p rest ih =>
    obtain ⟨raw, f⟩ := p
    simp only [getShortName] at h
    by_cases h0 : (selectCountCondRun (shortNameCount db (trimString raw)) f).1 = 0
    · rw [if_pos h0] at h
      exact ih h
    · rw [if_neg h0] at h
      by_cases h1 :
          (selectCountCondRun (shortNameCount db (trimString raw)) f).1 = -1
      · rw [if_pos h1] at h
        exact ih h
      · rw [if_neg h1] at h
        have hs : trimString raw = s := Option.some.inj h
        rw [← hs]
        rcases selectCountCondRun_fst (shortNameCount db (trimString raw)) f with
          hf | hf
        · exact absurd hf h1
        · rw [hf] at h0
          omega

/-- A small concrete database used by the witnesses: two customers, each
owning one address. -/
def sampleDb : CustomerDatabase :=
  { Customers :=
      [⟨1, "JSMITH", some "John", some "Smith", some "SMITH FAMILY",
          10000, 0, "2024-01-01", "2024-01-01"⟩,
       ⟨2, "MSMITH", some "Mary", some "Smith", some "SMITH FAMILY",
          10000, 0, "2024-01-01", "2024-01-01"⟩],
    CustomerAddress :=
      [⟨1, 1, some "HOME", none, "1 Regent Road", some "London",
          some "W12 5GG", none, none, "2024-01-01", "2024-01-01"⟩,
       ⟨2, 2, some "HOME", none, "1 Regent Road", some "London",
          some "W12 5GG", none, none, "2024-01-01", "2024-01-01"⟩] }

/-- Witness for C2: on `sampleDb` the input "JSMITH" is accepted, and the
matching count is positive. -/
theorem getShortName_positive_count_witness :
    0 < shortNameCount sampleDb "JSMITH" :=
  getShortName_positive_count sampleDb [("JSMITH", noFaults)] "JSMITH"
    (by decide)

/-- `getCustomerID` (source lines 194-217): a parameterized single-row
SELECT of the Customer_ID for a short name; returns -1 when the prepare,
bind or step call fails, and -1 as well when the step yields no row (its
result stays at the initialisation). -/
def getCustomerID (db : CustomerDatabase) (inShortName : String)
    (f : SqlFaults) : Int :=
  if f.prepFails ∨ f.bindFails ∨ f.stepFails then -1
  else
    match db.Customers.find? (fun r => r.Customer_Short_Name == inShortName) with
    | some r => r.Customer_ID
    | none => -1

/-- The CustomerAddress rows whose Customer_ID is `cid`, in table order. -/
def addressRowsFor (db : CustomerDatabase) (cid : Int) : List AddressRow :=
  db.CustomerAddress.filter (fun r => r.Customer_ID == cid)

/-- The Address_ID values the enumeration loop of `getAddressID` stores
while printing, in order. -/
def addressIDsFor (db : CustomerDatabase) (cid : Int) : List Int :=
  (addressRowsFor db cid).map (fun r => r.Address_ID)

/-- The selection loop at the end of `getAddressID` (source lines 273-285):
read integers until one matches the collected list; `none` models reading
forever (finite input exhausted without a match). -/
def pickAddressLoop (addressIDs : List Int) : List Int → Option Int
  | [] => none
  | i :: rest =>
    if addressIDs.contains i then some i else pickAddressLoop addressIDs rest

/-- Engine nondeterminism for one `getAddressID` call: faults of the id
lookup, of the address count query, and of the enumeration SELECT
(its prepare, its bind, and how many rows step successfully before the
while loop sees a non-row result). -/
structure AddrEnumCtx where
  idFaults : SqlFaults
  countFaults : SqlFaults
  listPrepFails : Bool
  listBindFails : Bool
  listRowsStepped : Nat
deriving DecidableEq, Repr

/-- `getAddressID` (source lines 220-289): resolve the customer id (early
-1 on failure), count the addresses of the customer (early -2 on zero, -1 on a
negative sentinel), enumerate the address rows of the customer collecting their
ids (an empty list if the enumeration prepare or bind fails, a stepped
prefix otherwise), then loop reading integers until one is on the list. -/
def getAddressID (db : CustomerDatabase) (inShortName : String)
    (ctx : AddrEnumCtx) (intInputs : List Int) : Option Int :=
  let customerID := getCustomerID db inShortName ctx.idFaults
  if customerID = -1 then some (-1)
  else
    let customerAddresses :=
      (selectCountCondRun (addressIDsFor db customerID).length ctx.countFaults).1
    if customerAddresses = 0 then some (-2)
    else if customerAddresses < 0 then some (-1)
    else
      let addressIDs :=
        if ctx.listPrepFails ∨ ctx.listBindFails then []
        else (addressIDsFor db customerID).take ctx.listRowsStepped
      pickAddressLoop addressIDs intInputs

theorem pickAddressLoop_mem (valid inputs : List Int) (r : Int)
    (h : pickAddressLoop valid inputs = some r) : r ∈ valid := by
  induction inputs with
  | nil => exact Option.noConfusion h
  | cons i rest ih =>
    simp only [pickAddressLoop] at h
    by_cases hc : valid.contains i
    · rw [if_pos hc] at h
      rw [← Option.some.inj h]
      exact List.elem_iff.mp hc
    · rw [if_neg hc] at h
      exact ih h

theorem pickAddressLoop_nil (inputs : List Int) :
    pickAddressLoop [] inputs = none := by
  induction inputs with
  | nil => rfl
  | cons i rest ih => simpa [pickAddressLoop] using ih

/-- Claim C1: whenever `getAddressID` returns a non-negative identifier,
that identifier is among the Address_ID values of the CustomerAddress rows
whose Customer_ID equals the id resolved for the short name; it never
returns an address id owned by a different customer. -/
theorem getAddressID_owned (db : CustomerDatabase) (inShortName : String)
    (ctx : AddrEnumCtx) (intInputs : List Int) (r : Int)
    (h : getAddressID db inShortName ctx intInputs = some r) (hr : 0 ≤ r) :
    r ∈ addressIDsFor db (getCustomerID db inShortName ctx.idFaults) := by
  simp only [getAddressID] at h
  by_cases h1 : getCustomerID db inShortName ctx.idFaults = -1
  · rw [if_pos h1] at h
    have : (-1 : Int) = r := Option.some.inj h
    omega
  · rw [if_neg h1] at h
    set cnt := (selectCountCondRun
      (addressIDsFor db (getCustomerID db inShortName ctx.idFaults)).length
      ctx.countFaults).1 with hcnt
    by_cases h2 : cnt = 0
    · rw [if_pos h2] at h
      have : (-2 : Int) = r := Option.some.inj h
      omega
    · rw [if_neg h2] at h
      by_cases h3 : cnt < 0
      · rw [if_pos h3] at h
        have : (-1 : Int) = r := Option.some.inj h
        omega
      · rw [if_neg h3] at h
        by_cases h4 : ctx.listPrepFails ∨ ctx.listBindFails
        · rw [if_pos h4] at h
          rw [pickAddressLoop_nil] at h
          exact Option.noConfusion h
        · rw [if_neg h4] at h
          have hmem := pickAddressLoop_mem _ _ _ h
          exact List.take_subset _ _ hmem

/-- Witness for C1: on `sampleDb`, customer JSMITH (id 1) owns address 1;
the operator first enters 2 (owned by MSMITH, rejected) and then 1, which
is returned and belongs to the address list of JSMITH. -/
theorem getAddressID_owned_witness :
    (1 : Int) ∈ addressIDsFor sampleDb
      (getCustomerID sampleDb "JSMITH" noFaults) :=
  getAddressID_owned sampleDb "JSMITH" ⟨noFaults, noFaults, false, false, 10⟩
    [2, 1] 1 (by decide) (by decide)

/-- Claim C10: if the customer id resolves, the address count query reports
a positive count, but the enumeration SELECT fails to prepare or to bind
(so no ids are collected), then the selection loop never finds a matching
id: `getAddressID` does not return, whatever integers are entered. -/
theorem getAddressID_hangs_on_listing_failure (db : CustomerDatabase)
    (inShortName : String) (ctx : AddrEnumCtx) (intInputs : List Int)
    (h1 : getCustomerID db inShortName ctx.idFaults ≠ -1)
    (h2 : 0 < (selectCountCondRun
      (addressIDsFor db (getCustomerID db inShortName ctx.idFaults)).length
      ctx.countFaults).1)
    (h3 : ctx.listPrepFails = true ∨ ctx.listBindFails = true) :
    getAddressID db inShortName ctx intInputs = none := by
  simp only [getAddressID]
  rw [if_neg h1]
  rw [if_neg (by omega : ¬ (selectCountCondRun
    (addressIDsFor db (getCustomerID db inShortName ctx.idFaults)).length
    ctx.countFaults).1 = 0)]
  rw [if_neg (by omega : ¬ (selectCountCondRun
    (addressIDsFor db (getCustomerID db inShortName ctx.idFaults)).length
    ctx.countFaults).1 < 0)]
  have h4 : (ctx.listPrepFails ∨ ctx.listBindFails) := by
    rcases h3 with h | h
    · exact Or.inl (by rw [h])
    · exact Or.inr (by rw [h])
  rw [if_pos h4]
  exact pickAddressLoop_nil intInputs

/-- Witness for C10: on `sampleDb` with a failing enumeration prepare,
`getAddressID` for JSMITH consumes the whole input [1, 2, 3] without
returning, even though address 1 exists and the count query reported 1. -/
theorem getAddressID_hangs_witness :
    getAddressID sampleDb "JSMITH" ⟨noFaults, noFaults, true, false, 0⟩
      [1, 2, 3] = none :=
  getAddressID_hangs_on_listing_failure sampleDb "JSMITH"
    ⟨noFaults, noFaults, true, false, 0⟩ [1, 2, 3]
    (by decide) (by decide) (Or.inl rfl)

/-! ## Add Customer (source lines 493-556) -/

/-- The statement a trace event belongs to. -/
def stmtOf : SqlEvent → SqlStmt
  | .prep s _ => s
  | .bind s _ => s
  | .step s _ => s
  | .finalize s => s
  | .logError s => s

theorem selectCountCondRun_events_stmt (n : Nat) (f : SqlFaults) :
    ∀ e ∈ (selectCountCondRun n f).2, stmtOf e = .selectCountWhere := by
  obtain ⟨a, b, c⟩ := f
  cases a <;> cases b <;> cases c <;> simp [selectCountCondRun, stmtOf]

/-- The short-name uniqueness loop of Add Customer (source lines 498-507):
read a candidate short name, run the conditional count query, and accept
the name only when the result is exactly 0 (a -1 failure re-prompts too). -/
def addCustomerLoop (db : CustomerDatabase) :
    List (String × SqlFaults) → Option String
  | [] => none
  | (name, f) :: rest =>
    let cnt := (selectCountCondRun (shortNameCount db name) f).1
    if cnt = 0 then some name else addCustomerLoop db rest

/-- The engine events of the uniqueness loop: one count query per
candidate, stopping at the accepted one. -/
def addCustomerLoopEvents (db : CustomerDatabase) :
    List (String × SqlFaults) → List SqlEvent
  | [] => []
  | (name, f) :: rest =>
    let run := selectCountCondRun (shortNameCount db name) f
    if run.1 = 0 then run.2 else run.2 ++ addCustomerLoopEvents db rest

/-- The INSERT INTO Customers phase (source lines 515-555).  This site does
not nest its status checks: the prepare, the binds and the step are each
attempted whatever the earlier statuses, and each failure only logs; the
statement is finalized whatever happens.  The row is inserted only when
every call succeeded. -/
def insertCustomerRun (db : CustomerDatabase) (row : CustomerRow)
    (f : SqlFaults) : CustomerDatabase × List SqlEvent :=
  ((if f.prepFails ∨ f.bindFails ∨ f.stepFails then db
    else { db with Customers := db.Customers ++ [row] }),
   (if f.prepFails then
      [SqlEvent.prep .insertCustomer false, .logError .insertCustomer]
    else [SqlEvent.prep .insertCustomer true]) ++
   (if f.bindFails then
      [SqlEvent.bind .insertCustomer false, .logError .insertCustomer]
    else [SqlEvent.bind .insertCustomer true]) ++
   (if f.prepFails ∨ f.bindFails ∨ f.stepFails then
      [SqlEvent.step .insertCustomer false, .logError .insertCustomer]
    else [SqlEvent.step .insertCustomer true]) ++
   [SqlEvent.finalize .insertCustomer])

/-- The whole Add Customer branch: run the uniqueness loop; if it accepts a
name, run the INSERT phase with the row built from that name and the other
operator-entered fields (`row`).  If the input is exhausted without an
acceptable name the loop never reaches the INSERT. -/
def addCustomer (db : CustomerDatabase) (inputs : List (String × SqlFaults))
    (row : String → CustomerRow) (fIns : SqlFaults) :
    CustomerDatabase × List SqlEvent :=
  match addCustomerLoop db inputs with
  | none => (db, addCustomerLoopEvents db inputs)
  | some name =>
    let run := insertCustomerRun db (row name) fIns
    (run.1, addCustomerLoopEvents db inputs ++ run.2)

theorem addCustomerLoopEvents_stmt (db : CustomerDatabase)
    (inputs : List (String × SqlFaults)) :
    ∀ e ∈ addCustomerLoopEvents db inputs, stmtOf e = .selectCountWhere := by
  induction inputs with
  | nil => intro e he; exact absurd he (List.not_mem_nil e)
  | cons p rest ih =>
    obtain ⟨name, f⟩ := p
    intro e he
    simp only [addCustomerLoopEvents] at he
    by_cases h0 : (selectCountCondRun (shortNameCount db name) f).1 = 0
    · rw [if_pos h0] at he
      exact selectCountCondRun_events_stmt _ _ e he
    · rw [if_neg h0] at he
      rcases List.mem_append.mp he with he | he
      · exact selectCountCondRun_events_stmt _ _ e he
      · exact ih e he

/-- Claim C3: the INSERT INTO Customers statement is prepared (and run)
only after a short name with match count exactly zero was entered; an
already-used short name is rejected and the operator re-prompted, and a
rejection leaves the Customers table untouched (the loop issues only the
count query; if no acceptable name ever arrives the INSERT never appears
in the trace and the state is unchanged). -/
theorem addCustomer_unique_guard (db : CustomerDatabase)
    (inputs : List (String × SqlFaults)) (row : String → CustomerRow)
    (fIns : SqlFaults) :
    (∀ name, addCustomerLoop db inputs = some name →
      shortNameCount db name = 0) ∧
    (∀ name f rest, shortNameCount db name ≠ 0 →
      addCustomerLoop db ((name, f) :: rest) = addCustomerLoop db rest) ∧
    (addCustomerLoop db inputs = none →
      (addCustomer db inputs row fIns).1 = db ∧
      ∀ b, SqlEvent.prep .insertCustomer b ∉ (addCustomer db inputs row fIns).2) ∧
    (∀ name, addCustomerLoop db inputs = some name →
      (addCustomer db inputs row fIns).2 =
        addCustomerLoopEvents db inputs ++
          (insertCustomerRun db (row name) fIns).2) := by
  refine ⟨?_, ?_, ?_, ?_⟩
  · intro name h
    induction inputs with
    | nil => exact Option.noConfusion h
    | cons p rest ih =>
      obtain ⟨n, f⟩ := p
      simp only [addCustomerLoop] at h
      by_cases h0 : (selectCountCondRun (shortNameCount db n) f).1 = 0
      · rw [if_pos h0] at h
        have hn : n = name := Option.some.inj h
        rcases selectCountCondRun_fst (shortNameCount db n) f with hf | hf
        · rw [hf] at h0
          exact absurd h0 (by norm_num)
        · rw [hf] at h0
          rw [← hn]
          omega
      · rw [if_neg h0] at h
        exact ih h
  · intro name f rest hc
    simp only [addCustomerLoop]
    rcases selectCountCondRun_fst (shortNameCount db name) f with hf | hf
    · rw [if_neg (by rw [hf]; norm_num)]
    · rw [if_neg (by rw [hf]; exact_mod_cast hc)]
  · intro h
    constructor
    · simp [addCustomer, h]
    · intro b hmem
      simp only [addCustomer, h] at hmem
      have := addCustomerLoopEvents_stmt db inputs _ hmem
      exact SqlStmt.noConfusion this
  · intro name h
    simp [addCustomer, h]

/-- Witness for C3 on `sampleDb`: the first candidate JSMITH is already in
the table (count 1) and is rejected; the second candidate TESTER is
accepted, and its match count is zero. -/
theorem addCustomer_unique_guard_witness :
    shortNameCount sampleDb "TESTER" = 0 :=
  (addCustomer_unique_guard sampleDb
      [("JSMITH", noFaults), ("TESTER", noFaults)]
      (fun name => ⟨3, name, none, none, none, 100, 0, "2024-02-02",
        "2024-02-02"⟩) noFaults).1
    "TESTER" (by decide)

/-! ## Remove Customer, cascading (source lines 807-846) -/

/-- One DELETE with a bound id, as both cascading deletes run it: the
checks are fully nested (prepare, else bind, else step), each failure only
logs, and the handle is finalized on every path.  Returns whether the step
succeeded, with the event trace. -/
def deleteWithBindRun (s : SqlStmt) (f : SqlFaults) : Bool × List SqlEvent :=
  if f.prepFails then
    (false, [.prep s false, .logError s, .finalize s])
  else if f.bindFails then
    (false, [.prep s true, .bind s false, .logError s, .finalize s])
  else if f.stepFails then
    (false, [.prep s true, .bind s true, .step s false, .logError s,
      .finalize s])
  else
    (true, [.prep s true, .bind s true, .step s true, .finalize s])

/-- The confirmed Remove Customer branch: first
`DELETE FROM CustomerAddress WHERE Customer_ID = ?`, then
`DELETE FROM Customers WHERE Customer_ID = ?`, two separately prepared and
separately finalized statements; each delete takes effect only when its
step succeeds. -/
def removeCustomer (db : CustomerDatabase) (id : Int) (confirm : Bool)
    (f1 f2 : SqlFaults) : CustomerDatabase × List SqlEvent :=
  if confirm then
    let run1 := deleteWithBindRun .deleteAddrByCustomer f1
    let db1 :=
      if run1.1 then
        { db with CustomerAddress :=
            db.CustomerAddress.filter (fun r => !(r.Customer_ID == id)) }
      else db
    let run2 := deleteWithBindRun .deleteCustomer f2
    let db2 :=
      if run2.1 then
        { db1 with Customers :=
            db1.Customers.filter (fun r => !(r.Customer_ID == id)) }
      else db1
    (db2, run1.2 ++ run2.2)
  else (db, [])

theorem filter_not_self_eq_nil {α : Type} (p : α → Bool) (l : List α) :
    (l.filter (fun a => !(p a))).filter p = [] := by
  induction l with
  | nil => rfl
  | cons a t ih =>
    by_cases h : p a = true
    · simp [List.filter_cons, h, ih]
    · simp [List.filter_cons, h, ih]

/-- Claim C4: with a yes confirmation and both deletes succeeding, the
trace is the address delete (prepare, bind, step, finalize) followed by the
customer delete (prepare, bind, step, finalize) — two separately prepared,
separately finalized statements in that order — and afterwards neither
table has a row with the deleted customer id. -/
theorem removeCustomer_cascade (db : CustomerDatabase) (id : Int) :
    (removeCustomer db id true noFaults noFaults).1.CustomerAddress.filter
      (fun r => r.Customer_ID == id) = [] ∧
    (removeCustomer db id true noFaults noFaults).1.Customers.filter
      (fun r => r.Customer_ID == id) = [] ∧
    (removeCustomer db id true noFaults noFaults).2 =
      [.prep .deleteAddrByCustomer true, .bind .deleteAddrByCustomer true,
       .step .deleteAddrByCustomer true, .finalize .deleteAddrByCustomer,
       .prep .deleteCustomer true, .bind .deleteCustomer true,
       .step .deleteCustomer true, .finalize .deleteCustomer] := by
  refine ⟨?_, ?_, ?_⟩ <;>
    simp [removeCustomer, deleteWithBindRun, noFaults, filter_not_self_eq_nil]

/-! ## Parameter binding failures (source lines 140-148 and 814-828)

In the conditional `selectCount` overload and in both Remove Customer
deletes the step call sits inside the `else` branch of the bind status
check, so a bind failure skips it; in the Add Customer INSERT the checks
are not nested and the step is still attempted. -/

/-- Counterexample to claim C7 as stated: in the conditional `selectCount`
overload with count 5 and a failing bind (prepare fine), the bind failure
is recorded but no step call of any outcome appears in the trace — the
execution is NOT attempted. -/
theorem selectCount_bind_failure_skips_step_cex :
    SqlEvent.bind .selectCountWhere false ∈
      (selectCountCondRun 5 ⟨false, true, false⟩).2 ∧
    SqlEvent.step .selectCountWhere true ∉
      (selectCountCondRun 5 ⟨false, true, false⟩).2 ∧
    SqlEvent.step .selectCountWhere false ∉
      (selectCountCondRun 5 ⟨false, true, false⟩).2 := by
  decide

theorem deleteWithBindRun_events_stmt (s : SqlStmt) (f : SqlFaults) :
    ∀ e ∈ (deleteWithBindRun s f).2, stmtOf e = s := by
  obtain ⟨a, b, c⟩ := f
  cases a <;> cases b <;> cases c <;> simp [deleteWithBindRun, stmtOf]

/-- Claim C7 as amended: when a parameter binding call fails, the failure
is logged and the statement is still finalized; but in the conditional
`selectCount` overload and in the cascading-delete statements of Remove
Customer the step call is skipped, not attempted — only the non-nested
sites such as the Add Customer INSERT still attempt the step with the
partially-bound statement. -/
theorem bind_failure_behaviour (n : Nat) (f : SqlFaults)
    (db : CustomerDatabase) (id : Int) (f2 : SqlFaults) (row : CustomerRow)
    (hp : f.prepFails = false) (hb : f.bindFails = true) :
    (SqlEvent.logError .selectCountWhere ∈ (selectCountCondRun n f).2 ∧
     (∀ b, SqlEvent.step .selectCountWhere b ∉ (selectCountCondRun n f).2) ∧
     (selectCountCondRun n f).2.getLast? =
       some (.finalize .selectCountWhere)) ∧
    (SqlEvent.logError .deleteAddrByCustomer ∈
       (removeCustomer db id true f f2).2 ∧
     (∀ b, SqlEvent.step .deleteAddrByCustomer b ∉
       (removeCustomer db id true f f2).2)) ∧
    SqlEvent.step .insertCustomer false ∈ (insertCustomerRun db row f).2 := by
  obtain ⟨a, b, c⟩ := f
  simp only at hp hb
  rw [hp, hb]
  have hd2 := deleteWithBindRun_events_stmt .deleteCustomer f2
  refine ⟨⟨?_, ?_, ?_⟩, ⟨?_, ?_⟩, ?_⟩
  · cases c <;> simp [selectCountCondRun]
  · intro bb
    cases c <;> cases bb <;> simp [selectCountCondRun]
  · cases c <;> simp [selectCountCondRun]
  · simp only [removeCustomer, if_pos]
    apply List.mem_append_left
    cases c <;> simp [deleteWithBindRun]
  · intro bb hmem
    simp only [removeCustomer, if_pos] at hmem
    rcases List.mem_append.mp hmem with hm | hm
    · cases c <;> cases bb <;> simp [deleteWithBindRun] at hm
    · have := hd2 _ hm
      exact SqlStmt.noConfusion this
  · cases c <;> simp [insertCustomerRun]

/-- Witness for the amended C7: count 5, bind failing, on `sampleDb` with
customer id 1 and a fault-free second delete. -/
theorem bind_failure_behaviour_witness :
    SqlEvent.logError .selectCountWhere ∈
      (selectCountCondRun 5 ⟨false, true, false⟩).2 :=
  (bind_failure_behaviour 5 ⟨false, true, false⟩ sampleDb 1 noFaults
    ⟨3, "TESTER", none, none, none, 100, 0, "2024-02-02", "2024-02-02"⟩
    rfl rfl).1.1

/-! ## Remove Address, single (source lines 860-876)

The source guards this block with `if(preparedStatement != SQLITE_OK)` — a
comparison of the statement HANDLE against the integer status code.
`sqlite3_prepare_v2` leaves the handle NULL exactly when preparation
fails, so on a preparation failure the whole guarded block — including the
`if (prepStatus != SQLITE_OK)` error log it contains — is skipped, and
only the unconditional finalize runs.  On success the handle is non-null,
the inner status test falls to its else branch, and bind/step proceed with
their usual nested checks. -/

/-- The confirmed single-address DELETE of Remove Address. -/
def removeAddressSingleDelete (db : CustomerDatabase) (addressID : Int)
    (f : SqlFaults) : CustomerDatabase × List SqlEvent :=
  if f.prepFails then
    (db, [.prep .deleteAddrById false, .finalize .deleteAddrById])
  else if f.bindFails then
    (db, [.prep .deleteAddrById true, .bind .deleteAddrById false,
      .logError .deleteAddrById, .finalize .deleteAddrById])
  else if f.stepFails then
    (db, [.prep .deleteAddrById true, .bind .deleteAddrById true,
      .step .deleteAddrById false, .logError .deleteAddrById,
      .finalize .deleteAddrById])
  else
    ({ db with CustomerAddress :=
        db.CustomerAddress.filter (fun r => !(r.Address_ID == addressID)) },
     [.prep .deleteAddrById true, .bind .deleteAddrById true,
      .step .deleteAddrById true, .finalize .deleteAddrById])

/-- Claim C8 evaluated at the failing input: when the prepare of the
Remove Address DELETE fails on `sampleDb`, the bind and step are skipped
and the handle is finalized, but NO error message is logged — the trace is
just the failed prepare followed by the finalize, contradicting the
claimed "an error message naming the failure is logged". -/
theorem removeAddress_prep_failure_not_logged :
    (removeAddressSingleDelete sampleDb 1 ⟨true, false, false⟩).2 =
      [.prep .deleteAddrById false, .finalize .deleteAddrById] ∧
    SqlEvent.logError .deleteAddrById ∉
      (removeAddressSingleDelete sampleDb 1 ⟨true, false, false⟩).2 ∧
    (removeAddressSingleDelete sampleDb 1 ⟨true, false, false⟩).1 =
      sampleDb := by
  decide

/-! ## Update Customer credit (source lines 692-721) -/

/-- The per-row effect of `UPDATE Customers SET Credit_Limit = ?,
Outstanding_Credit = ?, Updated_On = DATE(now) WHERE Customer_ID = ?`. -/
def updateCreditRow (r : CustomerRow) (id c o : Int) (today : String) :
    CustomerRow :=
  if r.Customer_ID == id then
    { r with Credit_Limit := c, Outstanding_Credit := o, Updated_On := today }
  else r

/-- The Update Customer credit branch applied to the state: the UPDATE
touches only Customers rows matching the bound id. -/
def updateCustomerCredit (db : CustomerDatabase) (id c o : Int)
    (today : String) : CustomerDatabase :=
  { db with Customers :=
      db.Customers.map (fun r => updateCreditRow r id c o today) }

/-- Claim C9: the credit update leaves CustomerAddress untouched, keeps
every Customers row in place (same count, rows rewritten in place), leaves
every row whose Customer_ID differs from the bound id exactly as it was,
and on a matching row changes only Credit_Limit, Outstanding_Credit and
Updated_On, preserving the short name, the names, the group and the
creation timestamp. -/
theorem updateCustomerCredit_frame (db : CustomerDatabase) (id c o : Int)
    (today : String) :
    (updateCustomerCredit db id c o today).CustomerAddress =
      db.CustomerAddress ∧
    (updateCustomerCredit db id c o today).Customers.length =
      db.Customers.length ∧
    (updateCustomerCredit db id c o today).Customers =
      db.Customers.map (fun r => updateCreditRow r id c o today) ∧
    (∀ r : CustomerRow, r.Customer_ID ≠ id →
      updateCreditRow r id c o today = r) ∧
    (∀ r : CustomerRow, r.Customer_ID = id →
      (updateCreditRow r id c o today).Customer_Short_Name =
        r.Customer_Short_Name ∧
      (updateCreditRow r id c o today).First_Name = r.First_Name ∧
      (updateCreditRow r id c o today).Last_Name = r.Last_Name ∧
      (updateCreditRow r id c o today).Group_Name = r.Group_Name ∧
      (updateCreditRow r id c o today).Created_On = r.Created_On ∧
      (updateCreditRow r id c o today).Credit_Limit = c ∧
      (updateCreditRow r id c o today).Outstanding_Credit = o ∧
      (updateCreditRow r id c o today).Updated_On = today) := by
  refine ⟨rfl, by simp [updateCustomerCredit], rfl, ?_, ?_⟩
  · intro r hr
    simp [updateCreditRow, hr]
  · intro r hr
    simp [updateCreditRow, hr]

/-- Witness for C9 on `sampleDb`: updating the credit of customer id 1 leaves
the address table unchanged and leaves the MSMITH row (id 2) unchanged,
while the JSMITH row keeps its short name. -/
theorem updateCustomerCredit_frame_witness :
    (updateCustomerCredit sampleDb 1 500 250 "2024-02-02").CustomerAddress =
      sampleDb.CustomerAddress ∧
    updateCreditRow ⟨2, "MSMITH", some "Mary", some "Smith",
      some "SMITH FAMILY", 10000, 0, "2024-01-01", "2024-01-01"⟩
      1 500 250 "2024-02-02" =
      ⟨2, "MSMITH", some "Mary", some "Smith", some "SMITH FAMILY",
        10000, 0, "2024-01-01", "2024-01-01"⟩ ∧
    (updateCreditRow ⟨1, "JSMITH", some "John", some "Smith",
      some "SMITH FAMILY", 10000, 0, "2024-01-01", "2024-01-01"⟩
      1 500 250 "2024-02-02").Customer_Short_Name = "JSMITH" := by
  have h := updateCustomerCredit_frame sampleDb 1 500 250 "2024-02-02"
  refine ⟨h.1, h.2.2.2.1 _ (by decide), (h.2.2.2.2 _ (by decide)).1⟩
